import Mathlib

/-!
Verification development for the aicommit CLI (src/aicommit.py).

The Python source is shallowly embedded: strings are `String`/`List Char`,
subprocess outcomes and process exits are explicit values, the remote
generation API is abstracted as a function from the call index to the raw
response text, and `os.urandom(4)` is a parameter of four bytes.
-/

namespace Aicommit

/-- Backtick character, code point 96. -/
def backtickChar : Char := Char.ofNat 96

/-- Double quote character, code point 34. -/
def dquoteChar : Char := Char.ofNat 34

/-- Single quote character, code point 39. -/
def squoteChar : Char := Char.ofNat 39

/-- ASCII whitespace characters: these are stripped by Python `str.strip()` and
matched by the regex class `\s`.  Python also treats some further Unicode
code points as whitespace; the model restricts to the ASCII members, which is
the set relevant to every claim below. -/
def wsChars : List Char := [' ', '\t', '\n', '\r', '\x0b', '\x0c']

/-- Python `str.strip(chars)`: remove the characters of `cs` from both ends. -/
def stripChars (cs : List Char) (l : List Char) : List Char :=
  ((l.dropWhile (fun c => cs.contains c)).reverse.dropWhile (fun c => cs.contains c)).reverse

/-- Python `str.strip()` with no argument (whitespace strip). -/
def pyStrip (l : List Char) : List Char := stripChars wsChars l

/-- Python `str.strip()` on `String`, as applied to subprocess stdout in
`run_git_command` (aicommit.py line 52) and to `response.text` (lines 126 and 197). -/
def pyStripS (s : String) : String := String.mk (pyStrip s.toList)

/-- Characters matched by the regex class `[\s_]` at aicommit.py line 93. -/
def isWsU (c : Char) : Bool := wsChars.contains c || c = '_'

/-- Worker for `collapseWsU`; the boolean records whether the previous
character belonged to the current whitespace-underscore run (for which a
hyphen has already been emitted). -/
def collapseAux : Bool → List Char → List Char
  | _, [] => []
  | inRun, c :: rest =>
    if isWsU c then
      if inRun then collapseAux true rest
      else '-' :: collapseAux true rest
    else c :: collapseAux false rest

/-- Replace every maximal run of whitespace or underscores by one hyphen:
the substitution of the pattern "[\s_]+" by "-" at aicommit.py line 93. -/
def collapseWsU (l : List Char) : List Char := collapseAux false l

/-- Keep-test of the character removal at aicommit.py line 95, which deletes
every character that is not a letter, a digit, a hyphen or a forward slash. -/
def keepAllowed (c : Char) : Bool :=
  ('a' ≤ c && c ≤ 'z') || ('A' ≤ c && c ≤ 'Z') || ('0' ≤ c && c ≤ '9') ||
    c = '-' || c = '/'

/-- Characters allowed in a sanitized branch name: lowercase letters,
digits, hyphen and forward slash (the character class of the specification
regex). -/
def isBranchChar (c : Char) : Bool :=
  ('a' ≤ c && c ≤ 'z') || ('0' ≤ c && c ≤ '9') || c = '-' || c = '/'

/-- Lowercase hexadecimal digit, as produced by Python `bytes.hex()`. -/
def hexChar (i : Fin 16) : Char := "0123456789abcdef".toList.getD i.val '0'

/-- Four random bytes, modeling `os.urandom(4)` at aicommit.py line 100. -/
structure RandBytes where
  b0 : Fin 256
  b1 : Fin 256
  b2 : Fin 256
  b3 : Fin 256

/-- The two lowercase hex digits of one byte, as in Python `bytes.hex()`. -/
def hexByte (b : Fin 256) : List Char :=
  [hexChar ⟨b.val / 16, by omega⟩, hexChar ⟨b.val % 16, by omega⟩]

/-- The eight hex digits of `os.urandom(4).hex()`. -/
def hexRand (r : RandBytes) : List Char :=
  hexByte r.b0 ++ hexByte r.b1 ++ hexByte r.b2 ++ hexByte r.b3

/-- The fallback branch name built by the f-string at aicommit.py line 100. -/
def fallbackName (r : RandBytes) : List Char :=
  "ai-generated-branch-".toList ++ hexRand r

/-- The stages of `sanitize_branch_name` before the emptiness check
(aicommit.py lines 91 to 97): strip surrounding backticks and spaces,
collapse whitespace-underscore runs to hyphens, drop disallowed characters,
strip surrounding hyphens. -/
def branchCore (l : List Char) : List Char :=
  stripChars ['-']
    ((collapseWsU (stripChars [backtickChar, ' '] l)).filter keepAllowed)

/-- Body of `sanitize_branch_name` (aicommit.py lines 88 to 101) on character
lists.  Python `str.lower()` is Unicode aware; it is modeled by `Char.toLower`,
which agrees with it on the ASCII characters that survive the filter. -/
def sanitizeBranchList (r : RandBytes) (l : List Char) : List Char :=
  if branchCore l = [] then fallbackName r
  else (branchCore l).map Char.toLower

/-- `sanitize_branch_name` (aicommit.py lines 88 to 101); `r` models the bytes
of `os.urandom(4)` used when the fallback name is needed. -/
def sanitize_branch_name (r : RandBytes) (name : String) : String :=
  String.mk (sanitizeBranchList r name.toList)

/-- Fuel-driven worker for `pyRemove`: one unit of fuel is spent per scanned
position, so fuel equal to the length of the list always suffices.  The
zero-fuel arm is unreachable from `pyRemove`. -/
def pyRemoveF (pat : List Char) : Nat → List Char → List Char
  | _, [] => []
  | 0, l => l
  | fuel + 1, c :: rest =>
    if pat.isPrefixOf (c :: rest) then pyRemoveF pat fuel (rest.drop (pat.length - 1))
    else c :: pyRemoveF pat fuel rest

/-- Python `str.replace(pat, '')` for a nonempty pattern: delete every
left-to-right non-overlapping occurrence of `pat`. -/
def pyRemove (pat : List Char) (l : List Char) : List Char :=
  pyRemoveF pat l.length l

/-- The commit message sanitation of `generate_commit_message`
(aicommit.py lines 197 to 198): strip surrounding whitespace from
`response.text`, then delete triple backticks, single backticks, double
quotes and single quotes, in that order. -/
def sanitize_commit (raw : String) : String :=
  String.mk (pyRemove [squoteChar]
    (pyRemove [dquoteChar]
      (pyRemove [backtickChar]
        (pyRemove [backtickChar, backtickChar, backtickChar]
          (pyStrip raw.toList)))))

/-- The operator-input normalization `input(...).lower().strip()` at
aicommit.py lines 144 and 215 (`Char.toLower` models Python `str.lower()`,
agreeing with it on ASCII). -/
def normalizeChoice (s : String) : String :=
  String.mk (pyStrip (s.toList.map Char.toLower))

/-- Outcome of one subprocess invocation, as observed by `run_git_command`:
normal termination with exit status 0 and the given stdout, a nonzero exit
status raising `subprocess.CalledProcessError` (because of `check=True`) with
the given return code and stderr text, or `FileNotFoundError`. -/
inductive CmdResult
  | success (stdout : String)
  | failure (returncode : Nat) (stderr : String)
  | notFound
deriving DecidableEq

/-- `run_git_command` (aicommit.py lines 48 to 68).  On success it returns
`result.stdout.strip()`.  On `CalledProcessError`, on `FileNotFoundError` and
on any other exception it prints a message and calls `sys.exit(1)`; a process
exit with code `code` is modeled as `Except.error code`. -/
def run_git_command : CmdResult → Except Nat String
  | CmdResult.success out => Except.ok (pyStripS out)
  | CmdResult.failure _ _ => Except.error 1
  | CmdResult.notFound => Except.error 1

/-- Python `pat in text` substring test. -/
def hasSubstr (pat : List Char) : List Char → Bool
  | [] => pat.isEmpty
  | c :: rest => pat.isPrefixOf (c :: rest) || hasSubstr pat rest

/-- `git_create_and_checkout_branch` (aicommit.py lines 265 to 289).
`createRes` is the outcome of `git checkout -b <name>`, and `checkoutRes`
would be the outcome of the plain `git checkout <name>` fallback.  When the
subprocess fails, `run_git_command` itself prints the error and calls
`sys.exit(1)`: it never lets `subprocess.CalledProcessError` escape.  The
raised `SystemExit` derives from `BaseException`, so it is caught neither by
`except subprocess.CalledProcessError` (line 273) nor by `except Exception`
(line 287), and the already-exists fallback at lines 274 to 283 is
unreachable; `checkoutRes` is therefore never consulted. -/
def git_create_and_checkout_branch (createRes : CmdResult)
    (checkoutRes : CmdResult) : Except Nat Unit :=
  match run_git_command createRes with
  | Except.ok _ => Except.ok ()
  | Except.error code => Except.error code

/-- What the specification says `create_and_checkout_branch` does on a
creation failure whose stderr contains "already exists": fall back to a plain
checkout of the existing branch.  Kept only to state the divergence of the
code from the specification. -/
def create_and_checkout_branch_specIntent (createRes : CmdResult)
    (checkoutRes : CmdResult) : Except Nat Unit :=
  match createRes with
  | CmdResult.success _ => Except.ok ()
  | CmdResult.failure _ stderr =>
    if hasSubstr "already exists".toList stderr.toList then
      match run_git_command checkoutRes with
      | Except.ok _ => Except.ok ()
      | Except.error _ => Except.error 1
    else Except.error 1
  | CmdResult.notFound => Except.error 1

/-- List of allowed Gemini models (aicommit.py line 19). -/
def ALLOWED_MODELS : List String :=
  ["gemini-2.0-flash-lite", "gemini-2.0-flash", "gemini-1.5-flash", "gemini-1.5-pro"]

/-- Default Gemini model (aicommit.py line 21). -/
def DEFAULT_MODEL_NAME : String := "gemini-2.0-flash-lite"

/-- Terminal outcome of a generate-and-confirm loop: candidate accepted with
the unread operator inputs, explicit abort by the operator (`sys.exit(0)`),
fatal failure (`sys.exit(1)`), or exhaustion of the scripted operator input
(`EOFError`, which crashes the process). -/
inductive LoopExit
  | accepted (text : String) (rest : List String)
  | userAbort (rest : List String)
  | fail
  | eof
deriving DecidableEq

/-- Result of a generate-and-confirm loop, together with the number of calls
made to the generation service. -/
structure LoopResult where
  exit : LoopExit
  calls : Nat
deriving DecidableEq

/-- Waiting state of an interactive generate-and-confirm loop between two
reads of operator input: either a sanitized nonempty candidate is being
shown (`prompting`), or the previous generation produced an empty candidate
and the operator is asked whether to retry (`retryPrompt`). -/
inductive Mode
  | prompting (msg : String)
  | retryPrompt
deriving DecidableEq

/-- State reached immediately after generation call `k`: `cand k` is the
sanitized candidate; an empty candidate raises `ValueError` inside the `try`
block and lands in the retry prompt of the `except` handler. -/
def afterGen (cand : Nat → String) (k : Nat) : Mode :=
  if cand k = "" then Mode.retryPrompt else Mode.prompting (cand k)

/-- One operator input is consumed per step of the interactive loop shared by
`generate_branch_name` (aicommit.py lines 110 to 170) and
`generate_commit_message` (lines 179 to 241): in `prompting`, `y` accepts,
`n` exits 0, `r` regenerates and every other input re-prompts; in
`retryPrompt`, `y` regenerates and everything else exits 1.  An empty input
list models `EOFError`. -/
def confirmConsume (cand : Nat → String) : Nat → Mode → List String → LoopResult
  | k, _, [] => ⟨LoopExit.eof, k + 1⟩
  | k, Mode.prompting msg, i :: rest =>
    let c := normalizeChoice i
    if c = "y" then ⟨LoopExit.accepted msg rest, k + 1⟩
    else if c = "n" then ⟨LoopExit.userAbort rest, k + 1⟩
    else if c = "r" then confirmConsume cand (k + 1) (afterGen cand (k + 1)) rest
    else confirmConsume cand k (Mode.prompting msg) rest
  | k, Mode.retryPrompt, i :: rest =>
    if normalizeChoice i = "y" then confirmConsume cand (k + 1) (afterGen cand (k + 1)) rest
    else ⟨LoopExit.fail, k + 1⟩

/-- The whole generate-and-confirm loop, starting with generation call 0.
Non-interactive runs return the first nonempty sanitized candidate without
reading input, and fail fatally on an empty candidate. -/
def confirmRun (cand : Nat → String) (interactive : Bool)
    (inputs : List String) : LoopResult :=
  if interactive then confirmConsume cand 0 (afterGen cand 0) inputs
  else
    match afterGen cand 0 with
    | Mode.prompting msg => ⟨LoopExit.accepted msg inputs, 1⟩
    | Mode.retryPrompt => ⟨LoopExit.fail, 1⟩

/-- `generate_commit_message` (aicommit.py lines 172 to 241).  `gen k` is the
raw text of the k-th API response (the generation service is modeled as
always answering); the sanitation of lines 197 to 198 is applied to it. -/
def generate_commit_message (gen : Nat → String) (interactive : Bool)
    (inputs : List String) : LoopResult :=
  confirmRun (fun k => sanitize_commit (gen k)) interactive inputs

/-- `generate_branch_name` (aicommit.py lines 103 to 170).  `gen k` is the
raw text of the k-th API response and `rands k` the bytes drawn from
`os.urandom` during the k-th sanitization. -/
def generate_branch_name (gen : Nat → String) (rands : Nat → RandBytes)
    (interactive : Bool) (inputs : List String) : LoopResult :=
  confirmRun (fun k => sanitize_branch_name (rands k) (pyStripS (gen k)))
    interactive inputs

/-- Git commands issued by the pipeline, in order: the two read-only diff
queries and the three mutating operations. -/
inductive GitCmd
  | diffStaged
  | diffUnstaged
  | checkoutNew (branch : String)
  | addAll
  | commit (message : String)
deriving DecidableEq

/-- Result of one run of the command: process exit status, the Git commands
issued in order, and the number of calls to the generation service. -/
structure RunResult where
  exitCode : Nat
  trace : List GitCmd
  genCalls : Nat
deriving DecidableEq

/-- The staging-and-commit tail of `main` (aicommit.py lines 342 to 353):
generate the commit message; on acceptance stage everything first when the
unstaged diff was used, then commit.  The mutating Git commands themselves
are modeled as succeeding. -/
def commitStage (genC : Nat → String) (interactive isStaged : Bool)
    (trace0 : List GitCmd) (calls0 : Nat) (inputs : List String) : RunResult :=
  match generate_commit_message genC interactive inputs with
  | ⟨LoopExit.accepted msg _, calls⟩ =>
    ⟨0, (if isStaged then trace0 else trace0 ++ [GitCmd.addAll]) ++
      [GitCmd.commit msg], calls0 + calls⟩
  | ⟨LoopExit.userAbort _, calls⟩ => ⟨0, trace0, calls0 + calls⟩
  | ⟨LoopExit.fail, calls⟩ => ⟨1, trace0, calls0 + calls⟩
  | ⟨LoopExit.eof, calls⟩ => ⟨1, trace0, calls0 + calls⟩

/-- The part of `main` after diff selection (aicommit.py lines 337 to 353):
optional branch generation and creation, then the commit stage. -/
def pipelineRest (genB genC : Nat → String) (rands : Nat → RandBytes)
    (newBranch interactive isStaged : Bool) (trace0 : List GitCmd)
    (inputs : List String) : RunResult :=
  if newBranch then
    match generate_branch_name genB rands interactive inputs with
    | ⟨LoopExit.accepted name rest, calls⟩ =>
      commitStage genC interactive isStaged
        (trace0 ++ [GitCmd.checkoutNew name]) calls rest
    | ⟨LoopExit.userAbort _, calls⟩ => ⟨0, trace0, calls⟩
    | ⟨LoopExit.fail, calls⟩ => ⟨1, trace0, calls⟩
    | ⟨LoopExit.eof, calls⟩ => ⟨1, trace0, calls⟩
  else commitStage genC interactive isStaged trace0 0 inputs

/-- `main` (aicommit.py lines 292 to 353).  `model` is the `--model` value:
argparse rejects a value outside `choices=ALLOWED_MODELS` with exit status 2
before anything else runs.  `stagedOut` and `unstagedOut` are the raw stdout
of `git diff --staged` and `git diff`; `run_git_command` strips them.
`genB diff k` and `genC diff k` are the raw API responses for branch names
and commit messages when the prompt was built from `diff`, and `inputs` is
the scripted operator input. -/
def mainRun (model : String) (newBranch interactive : Bool)
    (stagedOut unstagedOut : String) (genB genC : String → Nat → String)
    (rands : Nat → RandBytes) (inputs : List String) : RunResult :=
  if ALLOWED_MODELS.contains model then
    if pyStripS stagedOut = "" then
      if pyStripS unstagedOut = "" then
        ⟨0, [GitCmd.diffStaged, GitCmd.diffUnstaged], 0⟩
      else
        pipelineRest (genB (pyStripS unstagedOut)) (genC (pyStripS unstagedOut))
          rands newBranch interactive false
          [GitCmd.diffStaged, GitCmd.diffUnstaged] inputs
    else
      pipelineRest (genB (pyStripS stagedOut)) (genC (pyStripS stagedOut))
        rands newBranch interactive true [GitCmd.diffStaged] inputs
  else ⟨2, [], 0⟩

/-! ### Helper lemmas -/

lemma toList_mk (l : List Char) : (String.mk l).toList = l := rfl

lemma mem_pyRemoveF {x : Char} {pat : List Char} :
    ∀ fuel l, x ∈ pyRemoveF pat fuel l → x ∈ l := by
  intro fuel
  induction fuel with
  | zero =>
    intro l h
    cases l with
    | nil => simp [pyRemoveF] at h
    | cons c r => simpa [pyRemoveF] using h
  | succ n ih =>
    intro l h
    cases l with
    | nil => simp [pyRemoveF] at h
    | cons c r =>
      rw [pyRemoveF] at h
      by_cases hp : pat.isPrefixOf (c :: r) = true
      · rw [if_pos hp] at h
        exact List.mem_cons_of_mem c (List.mem_of_mem_drop (ih _ h))
      · rw [if_neg hp] at h
        rcases List.mem_cons.mp h with h1 | h2
        · exact h1 ▸ List.mem_cons_self c _
        · exact List.mem_cons_of_mem c (ih _ h2)

lemma not_mem_pyRemoveF_single {x : Char} :
    ∀ fuel l, l.length ≤ fuel → x ∉ pyRemoveF [x] fuel l := by
  intro fuel
  induction fuel with
  | zero =>
    intro l hl
    cases l with
    | nil => simp [pyRemoveF]
    | cons c r => simp at hl
  | succ n ih =>
    intro l hl
    cases l with
    | nil => simp [pyRemoveF]
    | cons c r =>
      rw [pyRemoveF]
      have hlen : r.length ≤ n := by
        simp only [List.length_cons] at hl; omega
      by_cases hp : ([x].isPrefixOf (c :: r)) = true
      · rw [if_pos hp]
        simpa using ih r hlen
      · rw [if_neg hp]
        intro hmem
        rcases List.mem_cons.mp hmem with h1 | h2
        · exact hp (by simp [List.isPrefixOf, h1])
        · exact ih r hlen h2

lemma mem_pyRemove {x : Char} {pat l : List Char} (h : x ∈ pyRemove pat l) :
    x ∈ l :=
  mem_pyRemoveF _ _ h

lemma not_mem_pyRemove_single {x : Char} (l : List Char) :
    x ∉ pyRemove [x] l :=
  not_mem_pyRemoveF_single _ _ (Nat.le_refl _)

/-! ### Claim C1 -/

/-- C1: the claim states that a branch-creation failure whose stderr contains
"already exists" is recovered by a plain checkout.  In the code this never
happens: `run_git_command` converts every `CalledProcessError` into
`sys.exit(1)`, so `git_create_and_checkout_branch` terminates the process
with status 1 on every creation failure, and the already-exists fallback is
unreachable.  The last conjunct records what the specification intends at
the same input. -/
theorem branch_creation_always_fatal :
    (∀ (rc : Nat) (stderr : String) (checkoutRes : CmdResult),
        git_create_and_checkout_branch (CmdResult.failure rc stderr) checkoutRes =
          Except.error 1) ∧
    hasSubstr "already exists".toList
      "fatal: a branch named test already exists.".toList = true ∧
    git_create_and_checkout_branch
      (CmdResult.failure 128 "fatal: a branch named test already exists.")
      (CmdResult.success "Switched to branch test") = Except.error 1 ∧
    create_and_checkout_branch_specIntent
      (CmdResult.failure 128 "fatal: a branch named test already exists.")
      (CmdResult.success "Switched to branch test") = Except.ok () := by
  exact ⟨fun _ _ _ => rfl, by decide, rfl, rfl⟩

/-! ### Claim C5 -/

/-- C5: for every raw model response, the sanitized commit message contains
no backtick, no double quote and no single quote. -/
theorem commit_sanitizer_strips_quotes (raw : String) :
    backtickChar ∉ (sanitize_commit raw).toList ∧
    dquoteChar ∉ (sanitize_commit raw).toList ∧
    squoteChar ∉ (sanitize_commit raw).toList := by
  refine ⟨?_, ?_, ?_⟩
  · intro h
    exact not_mem_pyRemove_single _ (mem_pyRemove (mem_pyRemove h))
  · intro h
    exact not_mem_pyRemove_single _ (mem_pyRemove h)
  · intro h
    exact not_mem_pyRemove_single _ h

/-! ### Claim C9 -/

/-- C9: whitespace is stripped before the quote characters are removed, so a
response wrapped as quote, space, text, space, quote keeps its inner
whitespace: the sanitized result of `" hi "` (with the double quotes part of
the text) is ` hi `, which starts and ends with a space. -/
theorem commit_sanitizer_keeps_inner_whitespace :
    sanitize_commit (String.mk (dquoteChar :: (" hi ".toList ++ [dquoteChar]))) =
      " hi " ∧
    (sanitize_commit (String.mk (dquoteChar :: (" hi ".toList ++ [dquoteChar])))).toList.head? =
      some ' ' ∧
    (sanitize_commit (String.mk (dquoteChar :: (" hi ".toList ++ [dquoteChar])))).toList.getLast? =
      some ' ' := by
  exact ⟨by decide, by decide, by decide⟩

/-! ### Claim C6 -/

/-- C6: the model allow-list has exactly four identifiers, and an invocation
whose model value lies outside it is rejected by argparse (exit status 2)
with no Git command run and no call to the generation service. -/
theorem model_outside_allow_list_rejected :
    ALLOWED_MODELS.length = 4 ∧
    ∀ (model : String) (newBranch interactive : Bool)
      (stagedOut unstagedOut : String) (genB genC : String → Nat → String)
      (rands : Nat → RandBytes) (inputs : List String),
      model ∉ ALLOWED_MODELS →
      mainRun model newBranch interactive stagedOut unstagedOut genB genC
        rands inputs = ⟨2, [], 0⟩ := by
  refine ⟨rfl, ?_⟩
  intro model nb it so uo gB gC rs ins hm
  unfold mainRun
  rw [if_neg (by simpa [List.contains] using hm)]

/-- Closed witness for `model_outside_allow_list_rejected`. -/
theorem model_outside_allow_list_rejected_witness :
    "gpt-4" ∉ ALLOWED_MODELS ∧
    mainRun "gpt-4" true true "d" "" (fun _ _ => "b") (fun _ _ => "m")
      (fun _ => ⟨0, 0, 0, 0⟩) [] = ⟨2, [], 0⟩ :=
  ⟨by decide,
    model_outside_allow_list_rejected.2 "gpt-4" true true "d" ""
      (fun _ _ => "b") (fun _ _ => "m") (fun _ => ⟨0, 0, 0, 0⟩) [] (by decide)⟩

/-! ### Claim C10 -/

/-- C10: operator input at a confirmation prompt is lowercased and stripped
of surrounding whitespace before comparison, so any input normalizing to
`y`, `n` or `r` is treated exactly as that choice.  The lemma is stated on
`confirmConsume`, the interactive loop shared by `generate_branch_name` and
`generate_commit_message`. -/
theorem prompt_input_normalized (cand : Nat → String) (k : Nat) (msg : String)
    (x : String) (rest : List String) :
    (normalizeChoice x = "y" →
      confirmConsume cand k (Mode.prompting msg) (x :: rest) =
        ⟨LoopExit.accepted msg rest, k + 1⟩) ∧
    (normalizeChoice x = "n" →
      confirmConsume cand k (Mode.prompting msg) (x :: rest) =
        ⟨LoopExit.userAbort rest, k + 1⟩) ∧
    (normalizeChoice x = "r" →
      confirmConsume cand k (Mode.prompting msg) (x :: rest) =
        confirmConsume cand (k + 1) (afterGen cand (k + 1)) rest) ∧
    (normalizeChoice x = "y" →
      confirmConsume cand k Mode.retryPrompt (x :: rest) =
        confirmConsume cand (k + 1) (afterGen cand (k + 1)) rest) := by
  refine ⟨?_, ?_, ?_, ?_⟩ <;> intro h <;> simp [confirmConsume, h]

/-- Closed witness for `prompt_input_normalized`: the inputs " Y ", " N "
and "R" act as accept, reject and regenerate. -/
theorem prompt_input_normalized_witness :
    confirmConsume (fun _ => "m") 0 (Mode.prompting "m") [" Y "] =
      ⟨LoopExit.accepted "m" [], 1⟩ ∧
    confirmConsume (fun _ => "m") 0 (Mode.prompting "m") [" N "] =
      ⟨LoopExit.userAbort [], 1⟩ ∧
    confirmConsume (fun _ => "m") 0 (Mode.prompting "m") ["R"] =
      confirmConsume (fun _ => "m") 1 (afterGen (fun _ => "m") 1) [] :=
  ⟨(prompt_input_normalized (fun _ => "m") 0 "m" " Y " []).1 (by decide),
    (prompt_input_normalized (fun _ => "m") 0 "m" " N " []).2.1 (by decide),
    (prompt_input_normalized (fun _ => "m") 0 "m" "R" []).2.2.1 (by decide)⟩

/-! ### Step lemmas for the interactive loop -/

lemma confirmConsume_cons_y {x : String} (cand : Nat → String) (k : Nat)
    (msg : String) (rest : List String) (h : normalizeChoice x = "y") :
    confirmConsume cand k (Mode.prompting msg) (x :: rest) =
      ⟨LoopExit.accepted msg rest, k + 1⟩ := by
  simp [confirmConsume, h]

lemma confirmConsume_cons_n {x : String} (cand : Nat → String) (k : Nat)
    (msg : String) (rest : List String) (h : normalizeChoice x = "n") :
    confirmConsume cand k (Mode.prompting msg) (x :: rest) =
      ⟨LoopExit.userAbort rest, k + 1⟩ := by
  simp [confirmConsume, h]

lemma confirmConsume_cons_r {x : String} (cand : Nat → String) (k : Nat)
    (msg : String) (rest : List String) (h : normalizeChoice x = "r") :
    confirmConsume cand k (Mode.prompting msg) (x :: rest) =
      confirmConsume cand (k + 1) (afterGen cand (k + 1)) rest := by
  simp [confirmConsume, h]

lemma confirmConsume_cons_invalid {x : String} (cand : Nat → String) (k : Nat)
    (msg : String) (rest : List String) (hy : normalizeChoice x ≠ "y")
    (hn : normalizeChoice x ≠ "n") (hr : normalizeChoice x ≠ "r") :
    confirmConsume cand k (Mode.prompting msg) (x :: rest) =
      confirmConsume cand k (Mode.prompting msg) rest := by
  simp [confirmConsume, hy, hn, hr]

lemma afterGen_of_ne (cand : Nat → String) (k : Nat) (h : cand k ≠ "") :
    afterGen cand k = Mode.prompting (cand k) := by
  simp [afterGen, h]

/-- On the operator script r, r, y the interactive loop generates three
candidates and accepts the third. -/
lemma confirmRun_rry (cand : Nat → String) (rest : List String)
    (h0 : cand 0 ≠ "") (h1 : cand 1 ≠ "") (h2 : cand 2 ≠ "") :
    confirmRun cand true ("r" :: "r" :: "y" :: rest) =
      ⟨LoopExit.accepted (cand 2) rest, 3⟩ := by
  have hr : normalizeChoice "r" = "r" := by decide
  have hy : normalizeChoice "y" = "y" := by decide
  simp only [confirmRun, if_true]
  rw [afterGen_of_ne cand 0 h0, confirmConsume_cons_r cand 0 _ _ hr,
    afterGen_of_ne cand 1 h1, confirmConsume_cons_r cand 1 _ _ hr,
    afterGen_of_ne cand 2 h2, confirmConsume_cons_y cand 2 _ _ hy]

/-! ### Claim C7 -/

/-- C7: in interactive mode with the scripted operator inputs r, r, y, the
generation service is called exactly three times and the third sanitized
candidate is the message committed. -/
theorem interactive_rry_commits_third_candidate
    (model stagedOut unstagedOut : String) (genB genC : String → Nat → String)
    (rands : Nat → RandBytes) (rest : List String)
    (hm : model ∈ ALLOWED_MODELS) (hs : pyStripS stagedOut ≠ "")
    (h0 : sanitize_commit (genC (pyStripS stagedOut) 0) ≠ "")
    (h1 : sanitize_commit (genC (pyStripS stagedOut) 1) ≠ "")
    (h2 : sanitize_commit (genC (pyStripS stagedOut) 2) ≠ "") :
    mainRun model false true stagedOut unstagedOut genB genC rands
      ("r" :: "r" :: "y" :: rest) =
      ⟨0, [GitCmd.diffStaged,
        GitCmd.commit (sanitize_commit (genC (pyStripS stagedOut) 2))], 3⟩ := by
  have hcontains : ALLOWED_MODELS.contains model = true := by
    simpa [List.contains] using hm
  unfold mainRun
  rw [if_pos hcontains, if_neg hs]
  unfold pipelineRest
  rw [if_neg Bool.false_ne_true]
  unfold commitStage generate_commit_message
  rw [confirmRun_rry _ _ h0 h1 h2]
  simp

/-! ### Lemmas for the rejection path -/

lemma fallbackName_eq_cons (r : RandBytes) :
    fallbackName r = 'a' :: ("i-generated-branch-".toList ++ hexRand r) := rfl

lemma sanitizeBranchList_ne_nil (r : RandBytes) (l : List Char) :
    sanitizeBranchList r l ≠ [] := by
  unfold sanitizeBranchList
  by_cases h : branchCore l = []
  · rw [if_pos h, fallbackName_eq_cons]
    exact List.cons_ne_nil _ _
  · rw [if_neg h]
    simpa using h

lemma sanitize_branch_name_ne_empty (r : RandBytes) (name : String) :
    sanitize_branch_name r name ≠ "" := by
  intro h
  have h2 : sanitizeBranchList r name.toList = [] := by
    have h3 := congrArg String.toList h
    simpa [sanitize_branch_name, toList_mk] using h3
  exact sanitizeBranchList_ne_nil r name.toList h2

lemma confirmConsume_append_invalid (cand : Nat → String) (k : Nat)
    (msg : String) (junk l : List String) :
    (∀ x ∈ junk, normalizeChoice x ≠ "y" ∧ normalizeChoice x ≠ "n" ∧
        normalizeChoice x ≠ "r") →
    confirmConsume cand k (Mode.prompting msg) (junk ++ l) =
      confirmConsume cand k (Mode.prompting msg) l := by
  induction junk with
  | nil => intro _; rfl
  | cons a t ih =>
    intro hj
    have ha := hj a (List.mem_cons_self a t)
    rw [List.cons_append,
      confirmConsume_cons_invalid cand k msg _ ha.1 ha.2.1 ha.2.2,
      ih (fun x hx => hj x (List.mem_cons_of_mem a hx))]

/-- Invalid inputs re-prompt; the first decisive answer `n` aborts. -/
lemma confirmRun_junk_n (cand : Nat → String) (junk : List String)
    (ans : String) (rest : List String) (h0 : cand 0 ≠ "")
    (hj : ∀ x ∈ junk, normalizeChoice x ≠ "y" ∧ normalizeChoice x ≠ "n" ∧
        normalizeChoice x ≠ "r")
    (hn : normalizeChoice ans = "n") :
    confirmRun cand true (junk ++ ans :: rest) =
      ⟨LoopExit.userAbort rest, 1⟩ := by
  show confirmConsume cand 0 (afterGen cand 0) (junk ++ ans :: rest) = _
  rw [afterGen_of_ne cand 0 h0,
    confirmConsume_append_invalid cand 0 _ junk _ hj,
    confirmConsume_cons_n cand 0 _ _ hn]

/-- Whatever diff was selected, the first decisive operator answer `n`
reaches exit 0 with only the read commands of `trace0` issued. -/
lemma pipelineRest_junk_n (genB genC : Nat → String) (rands : Nat → RandBytes)
    (newBranch isStaged : Bool) (trace0 : List GitCmd) (junk : List String)
    (ans : String) (rest : List String)
    (hj : ∀ x ∈ junk, normalizeChoice x ≠ "y" ∧ normalizeChoice x ≠ "n" ∧
        normalizeChoice x ≠ "r")
    (hn : normalizeChoice ans = "n")
    (hc : sanitize_commit (genC 0) ≠ "") :
    pipelineRest genB genC rands newBranch true isStaged trace0
      (junk ++ ans :: rest) = ⟨0, trace0, 1⟩ := by
  cases newBranch with
  | true =>
    unfold pipelineRest generate_branch_name
    rw [if_pos rfl,
      confirmRun_junk_n
        (fun k => sanitize_branch_name (rands k) (pyStripS (genB k))) junk ans
        rest (sanitize_branch_name_ne_empty (rands 0) (pyStripS (genB 0))) hj hn]
  | false =>
    unfold pipelineRest commitStage generate_commit_message
    rw [if_neg Bool.false_ne_true,
      confirmRun_junk_n (fun k => sanitize_commit (genC k)) junk ans rest hc
        hj hn]

/-! ### Claim C8 -/

/-- C8: in interactive mode, when the first decisive operator answer at a
confirmation prompt (after any number of invalid inputs) is `n`, the process
exits with status 0 and neither a staging command nor a commit command is
ever issued. -/
theorem operator_reject_no_mutation
    (model : String) (newBranch : Bool) (stagedOut unstagedOut : String)
    (genB genC : String → Nat → String) (rands : Nat → RandBytes)
    (junk : List String) (ans : String) (rest : List String)
    (hm : model ∈ ALLOWED_MODELS)
    (hj : ∀ x ∈ junk, normalizeChoice x ≠ "y" ∧ normalizeChoice x ≠ "n" ∧
        normalizeChoice x ≠ "r")
    (hn : normalizeChoice ans = "n")
    (hc : ∀ d, sanitize_commit (genC d 0) ≠ "") :
    (mainRun model newBranch true stagedOut unstagedOut genB genC rands
        (junk ++ ans :: rest)).exitCode = 0 ∧
    GitCmd.addAll ∉ (mainRun model newBranch true stagedOut unstagedOut genB
        genC rands (junk ++ ans :: rest)).trace ∧
    ∀ m, GitCmd.commit m ∉ (mainRun model newBranch true stagedOut unstagedOut
        genB genC rands (junk ++ ans :: rest)).trace := by
  have hcontains : ALLOWED_MODELS.contains model = true := by
    simpa [List.contains] using hm
  unfold mainRun
  rw [if_pos hcontains]
  by_cases hs : pyStripS stagedOut = ""
  · rw [if_pos hs]
    by_cases hu : pyStripS unstagedOut = ""
    · rw [if_pos hu]
      refine ⟨rfl, by decide, ?_⟩
      intro m
      simp
    · rw [if_neg hu,
        pipelineRest_junk_n _ _ rands newBranch false _ junk ans rest hj hn
          (hc (pyStripS unstagedOut))]
      refine ⟨rfl, by decide, ?_⟩
      intro m
      simp
  · rw [if_neg hs,
      pipelineRest_junk_n _ _ rands newBranch true _ junk ans rest hj hn
        (hc (pyStripS stagedOut))]
    refine ⟨rfl, by decide, ?_⟩
    intro m
    simp

/-- Closed witness for `operator_reject_no_mutation`. -/
theorem operator_reject_no_mutation_witness :
    (mainRun "gemini-2.0-flash-lite" false true "d" "" (fun _ _ => "b")
        (fun _ _ => "m") (fun _ => ⟨0, 0, 0, 0⟩) (["x"] ++ " N " :: [])).exitCode
      = 0 ∧
    GitCmd.addAll ∉ (mainRun "gemini-2.0-flash-lite" false true "d" ""
        (fun _ _ => "b") (fun _ _ => "m") (fun _ => ⟨0, 0, 0, 0⟩)
        (["x"] ++ " N " :: [])).trace ∧
    ∀ m, GitCmd.commit m ∉ (mainRun "gemini-2.0-flash-lite" false true "d" ""
        (fun _ _ => "b") (fun _ _ => "m") (fun _ => ⟨0, 0, 0, 0⟩)
        (["x"] ++ " N " :: [])).trace :=
  operator_reject_no_mutation "gemini-2.0-flash-lite" false "d" ""
    (fun _ _ => "b") (fun _ _ => "m") (fun _ => ⟨0, 0, 0, 0⟩) ["x"] " N " []
    (by decide) (by decide) (by decide)
    (fun _ => by show sanitize_commit "m" ≠ ""; decide)

/-- Closed witness for `interactive_rry_commits_third_candidate`. -/
theorem interactive_rry_commits_third_candidate_witness :
    mainRun "gemini-2.0-flash-lite" false true " d " ""
      (fun _ _ => "b") (fun d k => d ++ toString k) (fun _ => ⟨0, 0, 0, 0⟩)
      ["r", "r", "y"] =
      ⟨0, [GitCmd.diffStaged, GitCmd.commit "d2"], 3⟩ :=
  interactive_rry_commits_third_candidate "gemini-2.0-flash-lite" " d " ""
    (fun _ _ => "b") (fun d k => d ++ toString k) (fun _ => ⟨0, 0, 0, 0⟩) []
    (by decide) (by decide) (by decide) (by decide) (by decide)

/-! ### Trace-shape lemmas -/

/-- The commit stage only appends mutating commands to the trace it is given;
it never issues another diff read. -/
lemma commitStage_trace_shape (genC : Nat → String) (interactive isStaged : Bool)
    (trace0 : List GitCmd) (calls0 : Nat) (inputs : List String) :
    ∃ extra,
      (commitStage genC interactive isStaged trace0 calls0 inputs).trace =
        trace0 ++ extra ∧
      ∀ x ∈ extra, x ≠ GitCmd.diffStaged ∧ x ≠ GitCmd.diffUnstaged := by
  unfold commitStage
  cases hg : generate_commit_message genC interactive inputs with
  | mk ex calls =>
    cases ex with
    | accepted msg rest =>
      cases isStaged with
      | true => exact ⟨[GitCmd.commit msg], by simp, by simp⟩
      | false => exact ⟨[GitCmd.addAll, GitCmd.commit msg], by simp, by simp⟩
    | userAbort rest => exact ⟨[], by simp, by simp⟩
    | fail => exact ⟨[], by simp, by simp⟩
    | eof => exact ⟨[], by simp, by simp⟩

/-- The whole post-selection pipeline only appends mutating commands to the
trace of read commands it is given. -/
lemma pipelineRest_trace_shape (genB genC : Nat → String)
    (rands : Nat → RandBytes) (newBranch interactive isStaged : Bool)
    (trace0 : List GitCmd) (inputs : List String) :
    ∃ extra,
      (pipelineRest genB genC rands newBranch interactive isStaged trace0
          inputs).trace = trace0 ++ extra ∧
      ∀ x ∈ extra, x ≠ GitCmd.diffStaged ∧ x ≠ GitCmd.diffUnstaged := by
  unfold pipelineRest
  cases newBranch with
  | false =>
    rw [if_neg Bool.false_ne_true]
    exact commitStage_trace_shape genC interactive isStaged trace0 0 inputs
  | true =>
    rw [if_pos rfl]
    cases hg : generate_branch_name genB rands interactive inputs with
    | mk ex calls =>
      cases ex with
      | accepted name rest =>
        obtain ⟨extra, he, hx⟩ :=
          commitStage_trace_shape genC interactive isStaged
            (trace0 ++ [GitCmd.checkoutNew name]) calls rest
        refine ⟨GitCmd.checkoutNew name :: extra, ?_, ?_⟩
        · simpa using he
        · intro x hxm
          rcases List.mem_cons.mp hxm with h1 | h2
          · subst h1; exact ⟨by simp, by simp⟩
          · exact hx x h2
      | userAbort rest => exact ⟨[], by simp, by simp⟩
      | fail => exact ⟨[], by simp, by simp⟩
      | eof => exact ⟨[], by simp, by simp⟩

/-! ### Claim C3 -/

/-- C3: the pipeline prefers the staged diff (when it is nonempty the run
does not depend on the unstaged diff at all), the unstaged diff is consulted
exactly when the staged diff is empty, and when both stripped diffs are
empty the run exits 0 after the two read commands with no mutating Git
command and no generation call. -/
theorem diff_selection_policy
    (model : String) (newBranch interactive : Bool)
    (stagedOut unstagedOut : String) (genB genC : String → Nat → String)
    (rands : Nat → RandBytes) (inputs : List String)
    (hm : model ∈ ALLOWED_MODELS) :
    (pyStripS stagedOut = "" → pyStripS unstagedOut = "" →
      mainRun model newBranch interactive stagedOut unstagedOut genB genC
        rands inputs = ⟨0, [GitCmd.diffStaged, GitCmd.diffUnstaged], 0⟩) ∧
    (GitCmd.diffUnstaged ∈ (mainRun model newBranch interactive stagedOut
        unstagedOut genB genC rands inputs).trace ↔ pyStripS stagedOut = "") ∧
    (pyStripS stagedOut ≠ "" → ∀ otherUnstaged : String,
      mainRun model newBranch interactive stagedOut otherUnstaged genB genC
        rands inputs =
      mainRun model newBranch interactive stagedOut unstagedOut genB genC
        rands inputs) := by
  have hcontains : ALLOWED_MODELS.contains model = true := by
    simpa [List.contains] using hm
  refine ⟨?_, ?_, ?_⟩
  · intro hs hu
    unfold mainRun
    rw [if_pos hcontains, if_pos hs, if_pos hu]
  · by_cases hs : pyStripS stagedOut = ""
    · simp only [hs, iff_true]
      unfold mainRun
      rw [if_pos hcontains, if_pos hs]
      by_cases hu : pyStripS unstagedOut = ""
      · rw [if_pos hu]; simp
      · rw [if_neg hu]
        obtain ⟨extra, he, _⟩ :=
          pipelineRest_trace_shape (genB (pyStripS unstagedOut))
            (genC (pyStripS unstagedOut)) rands newBranch interactive false
            [GitCmd.diffStaged, GitCmd.diffUnstaged] inputs
        rw [he]
        simp
    · simp only [hs, iff_false]
      unfold mainRun
      rw [if_pos hcontains, if_neg hs]
      obtain ⟨extra, he, hx⟩ :=
        pipelineRest_trace_shape (genB (pyStripS stagedOut))
          (genC (pyStripS stagedOut)) rands newBranch interactive true
          [GitCmd.diffStaged] inputs
      rw [he]
      intro hmem
      rcases List.mem_append.mp hmem with h1 | h2
      · simp at h1
      · exact (hx _ h2).2 rfl
  · intro hs otherUnstaged
    unfold mainRun
    rw [if_pos hcontains, if_pos hcontains, if_neg hs, if_neg hs]

/-- Closed witness for `diff_selection_policy`: a whitespace-only staged diff
and an empty unstaged diff produce a clean no-op exit. -/
theorem diff_selection_policy_witness :
    mainRun "gemini-2.0-flash-lite" true true "  " "" (fun _ _ => "b")
      (fun _ _ => "m") (fun _ => ⟨0, 0, 0, 0⟩) [] =
      ⟨0, [GitCmd.diffStaged, GitCmd.diffUnstaged], 0⟩ :=
  (diff_selection_policy "gemini-2.0-flash-lite" true true "  " ""
      (fun _ _ => "b") (fun _ _ => "m") (fun _ => ⟨0, 0, 0, 0⟩) []
      (by decide)).1 (by decide) (by decide)

/-! ### Character-level lemmas -/

lemma char_le_iff (a b : Char) : a ≤ b ↔ a.toNat ≤ b.toNat := by
  rw [Char.le_def, UInt32.le_def, BitVec.le_def]
  exact Iff.rfl

lemma char_eq_iff (a b : Char) : a = b ↔ a.toNat = b.toNat := by
  constructor
  · intro h; rw [h]
  · intro h
    rw [← Char.ofNat_toNat a, ← Char.ofNat_toNat b, h]

lemma toNat_ofNat_valid (n : Nat) (h : n.isValidChar) :
    (Char.ofNat n).toNat = n := by
  unfold Char.ofNat
  rw [dif_pos h]
  rfl

lemma isValidChar_small (n : Nat) (h : n < 55296) : n.isValidChar := Or.inl h

lemma toLower_eq (c : Char) :
    Char.toLower c =
      if c.toNat ≥ 65 ∧ c.toNat ≤ 90 then Char.ofNat (c.toNat + 32) else c := rfl

lemma isBranchChar_iff (c : Char) :
    isBranchChar c = true ↔
      (97 ≤ c.toNat ∧ c.toNat ≤ 122) ∨ (48 ≤ c.toNat ∧ c.toNat ≤ 57) ∨
        c.toNat = 45 ∨ c.toNat = 47 := by
  have e1 : ('a').toNat = 97 := rfl
  have e2 : ('z').toNat = 122 := rfl
  have e3 : ('0').toNat = 48 := rfl
  have e4 : ('9').toNat = 57 := rfl
  have e5 : ('-').toNat = 45 := rfl
  have e6 : ('/').toNat = 47 := rfl
  unfold isBranchChar
  simp only [Bool.or_eq_true, Bool.and_eq_true, decide_eq_true_eq,
    char_le_iff, char_eq_iff, e1, e2, e3, e4, e5, e6]
  omega

lemma keepAllowed_iff (c : Char) :
    keepAllowed c = true ↔
      (97 ≤ c.toNat ∧ c.toNat ≤ 122) ∨ (65 ≤ c.toNat ∧ c.toNat ≤ 90) ∨
        (48 ≤ c.toNat ∧ c.toNat ≤ 57) ∨ c.toNat = 45 ∨ c.toNat = 47 := by
  have e1 : ('a').toNat = 97 := rfl
  have e2 : ('z').toNat = 122 := rfl
  have e3 : ('0').toNat = 48 := rfl
  have e4 : ('9').toNat = 57 := rfl
  have e5 : ('-').toNat = 45 := rfl
  have e6 : ('/').toNat = 47 := rfl
  have e7 : ('A').toNat = 65 := rfl
  have e8 : ('Z').toNat = 90 := rfl
  unfold keepAllowed
  simp only [Bool.or_eq_true, Bool.and_eq_true, decide_eq_true_eq,
    char_le_iff, char_eq_iff, e1, e2, e3, e4, e5, e6, e7, e8]
  omega

lemma isWsU_iff (c : Char) :
    isWsU c = true ↔
      c.toNat = 32 ∨ c.toNat = 9 ∨ c.toNat = 10 ∨ c.toNat = 13 ∨
        c.toNat = 11 ∨ c.toNat = 12 ∨ c.toNat = 95 := by
  have e1 : (' ').toNat = 32 := rfl
  have e2 : ('\t').toNat = 9 := rfl
  have e3 : ('\n').toNat = 10 := rfl
  have e4 : ('\r').toNat = 13 := rfl
  have e5 : ('\x0b').toNat = 11 := rfl
  have e6 : ('\x0c').toNat = 12 := rfl
  have e7 : ('_').toNat = 95 := rfl
  unfold isWsU wsChars
  simp only [List.contains, List.elem_eq_mem, List.mem_cons,
    List.not_mem_nil, or_false, Bool.or_eq_true, decide_eq_true_eq,
    char_eq_iff, e1, e2, e3, e4, e5, e6, e7]
  omega

lemma isBranchChar_not_wsU {c : Char} (h : isBranchChar c = true) :
    isWsU c = false := by
  rw [isBranchChar_iff] at h
  by_contra hw
  rw [Bool.not_eq_false, isWsU_iff] at hw
  omega

lemma isBranchChar_not_strip {c : Char} (h : isBranchChar c = true) :
    ([backtickChar, ' '].contains c) = false := by
  rw [isBranchChar_iff] at h
  have e1 : backtickChar.toNat = 96 := rfl
  have e2 : (' ').toNat = 32 := rfl
  simp only [List.contains, List.elem_eq_mem, List.mem_cons,
    List.not_mem_nil, or_false, decide_eq_false_iff_not, char_eq_iff,
    e1, e2]
  omega

lemma isBranchChar_keep {c : Char} (h : isBranchChar c = true) :
    keepAllowed c = true := by
  rw [isBranchChar_iff] at h
  rw [keepAllowed_iff]
  omega

lemma isBranchChar_toLower_fix {c : Char} (h : isBranchChar c = true) :
    Char.toLower c = c := by
  rw [isBranchChar_iff] at h
  rw [toLower_eq, if_neg (by omega)]

lemma keepAllowed_toLower_isBranch {c : Char} (h : keepAllowed c = true) :
    isBranchChar (Char.toLower c) = true := by
  rw [keepAllowed_iff] at h
  by_cases hu : c.toNat ≥ 65 ∧ c.toNat ≤ 90
  · rw [toLower_eq, if_pos hu, isBranchChar_iff,
      toNat_ofNat_valid _ (isValidChar_small _ (by omega))]
    omega
  · rw [toLower_eq, if_neg hu, isBranchChar_iff]
    omega

lemma toLower_ne_hyphen {c : Char} (h : c ≠ '-') : Char.toLower c ≠ '-' := by
  intro he
  rw [toLower_eq] at he
  by_cases hu : c.toNat ≥ 65 ∧ c.toNat ≤ 90
  · rw [if_pos hu, char_eq_iff,
      toNat_ofNat_valid _ (isValidChar_small _ (by omega))] at he
    have e5 : ('-').toNat = 45 := rfl
    omega
  · rw [if_neg hu] at he
    exact h he

lemma hexChar_isBranch : ∀ i : Fin 16, isBranchChar (hexChar i) = true := by
  decide

lemma hexChar_ne_hyphen : ∀ i : Fin 16, hexChar i ≠ '-' := by decide

/-! ### List-level lemmas about the branch sanitizer -/

lemma mem_of_head? {α : Type} {l : List α} {c : α} (h : l.head? = some c) :
    c ∈ l := by
  cases l with
  | nil => simp at h
  | cons a t =>
    rw [List.head?_cons, Option.some.injEq] at h
    rw [← h]
    exact List.mem_cons_self a t

lemma mem_of_getLast? {α : Type} {l : List α} {c : α}
    (h : l.getLast? = some c) : c ∈ l := by
  have h2 : l.reverse.head? = some c := by
    rw [List.head?_reverse]; exact h
  exact List.mem_reverse.mp (mem_of_head? h2)

lemma head?_dropWhile_false {α : Type} (p : α → Bool) (l : List α) {c : α}
    (h : (l.dropWhile p).head? = some c) : p c = false := by
  have hh := List.head?_dropWhile_not p l
  rw [h] at hh
  exact hh

lemma dropWhile_eq_self_of_head {α : Type} (p : α → Bool) (l : List α)
    (h : ∀ c, l.head? = some c → p c = false) : l.dropWhile p = l := by
  cases l with
  | nil => rfl
  | cons a t =>
    rw [List.dropWhile_cons_of_neg (by simp [h a rfl])]

lemma getLast?_dropWhile_of_ne_nil {α : Type} (p : α → Bool) (l : List α)
    (h : l.dropWhile p ≠ []) :
    (l.dropWhile p).getLast? = l.getLast? := by
  induction l with
  | nil => simp at h
  | cons a t ih =>
    by_cases hp : p a = true
    · rw [List.dropWhile_cons_of_pos hp] at h ⊢
      rw [ih h]
      have ht : t ≠ [] := by
        intro he; rw [he] at h; simp at h
      cases t with
      | nil => exact absurd rfl ht
      | cons b u => rw [List.getLast?_cons_cons]
    · rw [List.dropWhile_cons_of_neg (by simp [hp])]

lemma stripChars_eq_self (cs l : List Char)
    (hh : ∀ c, l.head? = some c → cs.contains c = false)
    (hl : ∀ c, l.getLast? = some c → cs.contains c = false) :
    stripChars cs l = l := by
  unfold stripChars
  rw [dropWhile_eq_self_of_head _ l hh,
    dropWhile_eq_self_of_head _ l.reverse
      (fun c hc => hl c (by rwa [List.head?_reverse] at hc)),
    List.reverse_reverse]

lemma mem_stripChars {cs l : List Char} {c : Char}
    (h : c ∈ stripChars cs l) : c ∈ l := by
  unfold stripChars at h
  have h1 := List.mem_reverse.mp h
  have h2 := List.dropWhile_subset _ h1
  have h3 := List.mem_reverse.mp h2
  exact List.dropWhile_subset _ h3

lemma head?_stripChars {cs l : List Char} {c : Char}
    (h : (stripChars cs l).head? = some c) : cs.contains c = false := by
  unfold stripChars at h
  rw [List.head?_reverse] at h
  have hne :
      List.dropWhile (fun c => cs.contains c)
        ((List.dropWhile (fun c => cs.contains c) l).reverse) ≠ [] := by
    intro he
    rw [he] at h
    simp at h
  rw [getLast?_dropWhile_of_ne_nil _ _ hne, List.getLast?_reverse] at h
  exact head?_dropWhile_false _ _ h

lemma getLast?_stripChars {cs l : List Char} {c : Char}
    (h : (stripChars cs l).getLast? = some c) : cs.contains c = false := by
  unfold stripChars at h
  rw [List.getLast?_reverse] at h
  exact head?_dropWhile_false _ _ h

lemma collapseAux_eq_self (l : List Char) (h : ∀ c ∈ l, isWsU c = false) :
    collapseAux false l = l := by
  induction l with
  | nil => rfl
  | cons a t ih =>
    unfold collapseAux
    rw [if_neg (by simp [h a (List.mem_cons_self a t)]),
      ih (fun c hc => h c (List.mem_cons_of_mem a hc))]

lemma map_toLower_eq_self (l : List Char)
    (h : ∀ c ∈ l, Char.toLower c = c) : l.map Char.toLower = l := by
  induction l with
  | nil => rfl
  | cons a t ih =>
    rw [List.map_cons, h a (List.mem_cons_self a t),
      ih (fun c hc => h c (List.mem_cons_of_mem a hc))]

lemma mem_hexByte {b : Fin 256} {c : Char} (h : c ∈ hexByte b) :
    ∃ i : Fin 16, c = hexChar i := by
  unfold hexByte at h
  rcases List.mem_cons.mp h with h1 | h1
  · exact ⟨_, h1⟩
  rcases List.mem_cons.mp h1 with h2 | h2
  · exact ⟨_, h2⟩
  simp at h2

lemma mem_hexRand {r : RandBytes} {c : Char} (h : c ∈ hexRand r) :
    ∃ i : Fin 16, c = hexChar i := by
  unfold hexRand at h
  rcases List.mem_append.mp h with h | h
  · rcases List.mem_append.mp h with h | h
    · rcases List.mem_append.mp h with h | h
      · exact mem_hexByte h
      · exact mem_hexByte h
    · exact mem_hexByte h
  · exact mem_hexByte h

lemma mem_fallbackName_isBranch (r : RandBytes) :
    ∀ c ∈ fallbackName r, isBranchChar c = true := by
  intro c hc
  rcases List.mem_append.mp hc with h | h
  · exact (by decide :
      ∀ c ∈ "ai-generated-branch-".toList, isBranchChar c = true) c h
  · obtain ⟨i, rfl⟩ := mem_hexRand h
    exact hexChar_isBranch i

lemma getLast?_fallbackName (r : RandBytes) :
    ∃ i : Fin 16, (fallbackName r).getLast? = some (hexChar i) := by
  refine ⟨⟨r.b3.val % 16, by omega⟩, ?_⟩
  unfold fallbackName hexRand hexByte
  simp [List.getLast?_append]

/-! ### Characterization of the branch sanitizer output -/

/-- Every character of a sanitized branch name is a lowercase letter, a
digit, a hyphen or a forward slash. -/
lemma sanitizeBranchList_chars (r : RandBytes) (l : List Char) :
    ∀ c ∈ sanitizeBranchList r l, isBranchChar c = true := by
  intro c hc
  unfold sanitizeBranchList at hc
  by_cases h : branchCore l = []
  · rw [if_pos h] at hc
    exact mem_fallbackName_isBranch r c hc
  · rw [if_neg h] at hc
    obtain ⟨d, hd, rfl⟩ := List.mem_map.mp hc
    apply keepAllowed_toLower_isBranch
    unfold branchCore at hd
    exact (List.mem_filter.mp (mem_stripChars hd)).2

lemma sanitizeBranchList_head_ne (r : RandBytes) (l : List Char) :
    ∀ c, (sanitizeBranchList r l).head? = some c → c ≠ '-' := by
  intro c hc
  unfold sanitizeBranchList at hc
  by_cases h : branchCore l = []
  · rw [if_pos h, fallbackName_eq_cons, List.head?_cons,
      Option.some.injEq] at hc
    rw [← hc]
    decide
  · rw [if_neg h, List.head?_map] at hc
    cases hh : (branchCore l).head? with
    | none => rw [hh] at hc; simp at hc
    | some d =>
      rw [hh, Option.map_some'] at hc
      rw [Option.some.injEq] at hc
      have hd : (['-'] : List Char).contains d = false := by
        unfold branchCore at hh
        exact head?_stripChars hh
      have hdne : d ≠ '-' := by
        intro he
        rw [he] at hd
        simp at hd
      rw [← hc]
      exact toLower_ne_hyphen hdne

lemma sanitizeBranchList_getLast_ne (r : RandBytes) (l : List Char) :
    ∀ c, (sanitizeBranchList r l).getLast? = some c → c ≠ '-' := by
  intro c hc
  unfold sanitizeBranchList at hc
  by_cases h : branchCore l = []
  · rw [if_pos h] at hc
    obtain ⟨i, hi⟩ := getLast?_fallbackName r
    rw [hi, Option.some.injEq] at hc
    rw [← hc]
    exact hexChar_ne_hyphen i
  · rw [if_neg h, List.getLast?_map] at hc
    cases hh : (branchCore l).getLast? with
    | none => rw [hh] at hc; simp at hc
    | some d =>
      rw [hh, Option.map_some'] at hc
      rw [Option.some.injEq] at hc
      have hd : (['-'] : List Char).contains d = false := by
        unfold branchCore at hh
        exact getLast?_stripChars hh
      have hdne : d ≠ '-' := by
        intro he
        rw [he] at hd
        simp at hd
      rw [← hc]
      exact toLower_ne_hyphen hdne

/-- A list that every sanitation stage leaves unchanged is a fixed point of
the branch sanitizer. -/
lemma sanitizeBranchList_eq_self (r2 : RandBytes) (y : List Char)
    (hne : y ≠ []) (h1 : stripChars [backtickChar, ' '] y = y)
    (h2 : collapseWsU y = y) (h3 : y.filter keepAllowed = y)
    (h4 : stripChars ['-'] y = y) (h5 : y.map Char.toLower = y) :
    sanitizeBranchList r2 y = y := by
  have hcore : branchCore y = y := by
    unfold branchCore
    rw [h1, h2, h3, h4]
  unfold sanitizeBranchList
  rw [hcore, if_neg hne, h5]

/-- A sanitized branch name passes the whole sanitation pipeline unchanged. -/
lemma sanitizeBranchList_idem (r2 r : RandBytes) (l : List Char) :
    sanitizeBranchList r2 (sanitizeBranchList r l) = sanitizeBranchList r l := by
  have hchars := sanitizeBranchList_chars r l
  have hne := sanitizeBranchList_ne_nil r l
  have h1 : stripChars [backtickChar, ' '] (sanitizeBranchList r l) =
      sanitizeBranchList r l :=
    stripChars_eq_self _ _
      (fun c hc => isBranchChar_not_strip (hchars c (mem_of_head? hc)))
      (fun c hc => isBranchChar_not_strip (hchars c (mem_of_getLast? hc)))
  have h2 : collapseWsU (sanitizeBranchList r l) = sanitizeBranchList r l :=
    collapseAux_eq_self _ (fun c hc => isBranchChar_not_wsU (hchars c hc))
  have h3 : (sanitizeBranchList r l).filter keepAllowed =
      sanitizeBranchList r l :=
    List.filter_eq_self.mpr (fun c hc => isBranchChar_keep (hchars c hc))
  have h4 : stripChars ['-'] (sanitizeBranchList r l) =
      sanitizeBranchList r l := by
    refine stripChars_eq_self _ _ ?_ ?_
    · intro c hc
      have := sanitizeBranchList_head_ne r l c hc
      simpa using this
    · intro c hc
      have := sanitizeBranchList_getLast_ne r l c hc
      simpa using this
  exact sanitizeBranchList_eq_self r2 _ hne h1 h2 h3 h4
    (map_toLower_eq_self _
      (fun c hc => isBranchChar_toLower_fix (hchars c hc)))

/-! ### Claim C2 -/

/-- C2: branch-name sanitization is idempotent, whatever random bytes the
two runs draw for the fallback path. -/
theorem sanitize_branch_name_idempotent (r2 r : RandBytes) (x : String) :
    sanitize_branch_name r2 (sanitize_branch_name r x) =
      sanitize_branch_name r x := by
  unfold sanitize_branch_name
  apply congrArg String.mk
  rw [toList_mk]
  exact sanitizeBranchList_idem r2 r x.toList

/-! ### Claim C4 -/

/-- C4: for every raw input, the sanitized branch name is nonempty and made
only of lowercase letters, digits, hyphens and slashes; when the sanitation
stages leave nothing, the result is the fallback name
`ai-generated-branch-` followed by the eight lowercase hex digits of the
four random bytes, and this path always succeeds. -/
theorem sanitize_branch_name_nonempty_safe (r : RandBytes) (name : String) :
    sanitize_branch_name r name ≠ "" ∧
    (∀ c ∈ (sanitize_branch_name r name).toList, isBranchChar c = true) ∧
    (branchCore name.toList = [] →
      sanitize_branch_name r name =
        String.mk ("ai-generated-branch-".toList ++ hexRand r) ∧
      (hexRand r).length = 8 ∧
      ∀ c ∈ hexRand r, (('0' ≤ c && c ≤ '9') || ('a' ≤ c && c ≤ 'f')) = true) := by
  refine ⟨sanitize_branch_name_ne_empty r name, ?_, ?_⟩
  · intro c hc
    rw [sanitize_branch_name, toList_mk] at hc
    exact sanitizeBranchList_chars r name.toList c hc
  · intro h
    refine ⟨?_, rfl, ?_⟩
    · unfold sanitize_branch_name sanitizeBranchList
      rw [if_pos h]
      rfl
    · intro c hc
      obtain ⟨i, rfl⟩ := mem_hexRand hc
      exact (by decide :
        ∀ i : Fin 16, (('0' ≤ hexChar i && hexChar i ≤ '9') ||
          ('a' ≤ hexChar i && hexChar i ≤ 'f')) = true) i

/-- Closed witness for `sanitize_branch_name_nonempty_safe`: an input of only
disallowed characters yields the fallback name. -/
theorem sanitize_branch_name_nonempty_safe_witness :
    sanitize_branch_name ⟨171, 205, 0, 15⟩ "!!!" ≠ "" ∧
    sanitize_branch_name ⟨171, 205, 0, 15⟩ "!!!" =
      String.mk ("ai-generated-branch-".toList ++ hexRand ⟨171, 205, 0, 15⟩) ∧
    sanitize_branch_name ⟨171, 205, 0, 15⟩ "!!!" =
      "ai-generated-branch-abcd000f" :=
  ⟨(sanitize_branch_name_nonempty_safe ⟨171, 205, 0, 15⟩ "!!!").1,
    ((sanitize_branch_name_nonempty_safe ⟨171, 205, 0, 15⟩ "!!!").2.2
      (by decide)).1,
    by decide⟩

end Aicommit
